import Mathlib

/-!
# Verification of the enyaq-data processing core

Shallow embedding of `src/process_data.py` (functions
`load_and_process_data` and `calculate_consumption_and_charges`).

Conventions of the embedding:
* Timestamps are rationals measured in minutes (the source keeps
  `pd.Timestamp`s; only differences in minutes/hours are ever used, via
  `diff().dt.total_seconds().div(60)` and `.total_seconds() / 3600`).
* Machine floats are modelled as rationals.  `round(x, n)` is modelled as
  rounding `x * 10^n` to the nearest integer (tie convention abstracted;
  no claim below depends on ties).
* A cell value is `Val.num q` when `pd.to_numeric` would parse it to the
  float `q`, and `Val.str s` when coercion would turn it into `NaN`
  (`errors="coerce"`).  JSON `null` payloads are outside the model.
* A missing cell (pandas `NaN` in a pivot/state table) is `Option.none`;
  comparisons against `NaN` are `False`, matching pandas semantics.
-/

namespace Enyaq

/-- A cell value of the raw event table: either a numeric payload (anything
`pd.to_numeric` parses) or a non-numeric string payload. -/
inductive Val where
  | num (q : ℚ)
  | str (s : String)
deriving DecidableEq

/-- One record of the input array: `dataFieldName`, `value`, parsed
`timestampUtc` (in minutes).  Events whose timestamp failed to parse have
already been dropped (source lines 192-196). -/
structure Event where
  field : String
  value : Val
  ts : ℚ
deriving DecidableEq

/-- The `interesting_fields` allow-list (source lines 223-237). -/
def interestingFields : List String :=
  ["currentSOCInPct", "chargePowerInKW", "chargeMode",
   "remainingChargingTimeToCompleteInMin", "mileage",
   "cruisingRangeElectricInKm", "temperatureOutsideVehicle",
   "climatisationState", "chargingState", "inspectionDueDays",
   "batteryCareMode", "plugConnectionState", "externalPower"]

/-- The `numeric_cols` list (source lines 246-254). -/
def numericCols : List String :=
  ["currentSOCInPct", "chargePowerInKW",
   "remainingChargingTimeToCompleteInMin", "mileage",
   "cruisingRangeElectricInKm", "temperatureOutsideVehicle",
   "inspectionDueDays"]

/-- The `notification_fields` list (source line 203). -/
def notificationFields : List String :=
  ["text", "priority", "category", "iconColor"]

/-- Does event `e` belong to the pivot cell at `(t, f)`? -/
def matchesAt (t : ℚ) (f : String) (e : Event) : Bool :=
  decide (e.field = f) && decide (e.ts = t)

/-- `aggfunc="last"` of `pivot_table` (source line 243): the value of the
last-arriving event for the `(timestamp, field)` key. -/
def lastAt (events : List Event) (t : ℚ) (f : String) : Option Val :=
  ((events.filter (matchesAt t f)).map (fun e => e.value)).getLast?

/-- `aggfunc="first"` of the notifications `pivot_table` (source line 213):
the value of the first-arriving event for the `(timestamp, field)` key. -/
def firstAt (events : List Event) (t : ℚ) (f : String) : Option Val :=
  ((events.filter (matchesAt t f)).map (fun e => e.value)).head?

/-- `df[df['dataFieldName'].isin(notification_fields)]` (source line 204). -/
def notifEvents (events : List Event) : List Event :=
  events.filter (fun e => notificationFields.contains e.field)

/-- A cell of the sparse notifications table (source lines 209-214):
pivot of the notification events with `aggfunc="first"`, no forward fill. -/
def notifCell (events : List Event) (t : ℚ) (f : String) : Option Val :=
  firstAt (notifEvents events) t f

/-- `df[df['dataFieldName'].isin(interesting_fields)]` (source line 239). -/
def interestingEvents (events : List Event) : List Event :=
  events.filter (fun e => interestingFields.contains e.field)

/-- The row index of the main pivot (source lines 243 and 269): the sorted
set of distinct timestamps of the filtered events. -/
def pivotTimestamps (events : List Event) : List ℚ :=
  List.insertionSort (fun a b => a ≤ b)
    (((interestingEvents events).map (fun e => e.ts)).dedup)

/-- Numeric payload of a value, if any. -/
def valNum? : Val → Option ℚ
  | .num q => some q
  | .str _ => none

/-- `pd.to_numeric(col, errors="coerce")` applied cell-wise (source lines
256-258): on the designated numeric columns a non-numeric value becomes
missing; other columns are untouched. -/
def coerceCell (f : String) (v : Val) : Option Val :=
  if numericCols.contains f then (valNum? v).map Val.num else some v

/-- A cell of the main pivot after numeric conversion. -/
def pivotCell (events : List Event) (t : ℚ) (f : String) : Option Val :=
  (lastAt (interestingEvents events) t f).bind (coerceCell f)

/-- `273.15`, the Kelvin-to-Celsius offset (source line 266). -/
def kelvinOffset : ℚ := 27315 / 100

/-- Numeric values present in a column (pandas both sums and counts only
the non-`NaN` entries when taking `.mean()`). -/
def colVals (col : List (Option Val)) : List ℚ :=
  col.filterMap (fun c => c.bind valNum?)

/-- `col.mean()` (source line 264); for an all-missing column the source
gets `NaN`, which fails the `> 200` test just as our junk value `0` does. -/
def colMeanV (col : List (Option Val)) : ℚ :=
  (colVals col).sum / (colVals col).length

/-- Subtract the Kelvin offset from a numeric cell value. -/
def subKelvin : Val → Val
  | .num q => .num (q - kelvinOffset)
  | .str s => .str s

/-- The Kelvin-fix heuristic (source lines 261-266): if the column mean
exceeds 200, subtract 273.15 from every value of the column. -/
def fixTempCol (col : List (Option Val)) : List (Option Val) :=
  if 200 < colMeanV col then col.map (Option.map subKelvin) else col

/-- `ffill` with an accumulator holding the last seen value. -/
def ffillFrom {α : Type} (acc : Option α) : List (Option α) → List (Option α)
  | [] => []
  | none :: cs => acc :: ffillFrom acc cs
  | some v :: cs => some v :: ffillFrom (some v) cs

/-- `df.ffill()` on one column (source line 272). -/
def ffill {α : Type} (l : List (Option α)) : List (Option α) :=
  ffillFrom none l

/-- One column of the sorted pivot before forward fill: pivoted cells,
numerically coerced, with the Kelvin fix on the temperature column
(source lines 243-269). -/
def columnPre (events : List Event) (f : String) : List (Option Val) :=
  let base := (pivotTimestamps events).map (fun t => pivotCell events t f)
  if f = "temperatureOutsideVehicle" then fixTempCol base else base

/-- One column of the filled state table `df_filled` (source line 272). -/
def stateColumn (events : List Event) (f : String) : List (Option Val) :=
  ffill (columnPre events f)

/-! ## The segmentation engine (`calculate_consumption_and_charges`) -/

/-- One row of the filled state table restricted to the four columns the
segmentation engine reads.  A `none` field is a `NaN` cell (a leading cell
before the column's first observation). -/
structure Sample where
  ts : ℚ
  soc : Option ℚ
  mileage : Option ℚ
  power : Option ℚ
  temp : Option ℚ
deriving DecidableEq

/-- A row together with the derived columns `delta_mileage`, `delta_soc`
and `time_diff_min` (source lines 49-51). -/
structure DSample where
  s : Sample
  deltaMileage : ℚ
  deltaSoc : ℚ
  timeDiffMin : ℚ
deriving DecidableEq

/-- `cur - prev` of `Series.diff()` followed by `.fillna(0)`: any `NaN`
difference (first row, or either operand missing) becomes `0`. -/
def diffFill (prev cur : Option ℚ) : ℚ :=
  match prev, cur with
  | some a, some b => b - a
  | _, _ => 0

/-- Derived columns for every row after the first; `prev` is the
predecessor row of the full table. -/
def withDeltasAux (prev : Sample) : List Sample → List DSample
  | [] => []
  | r :: rest =>
      { s := r,
        deltaMileage := diffFill prev.mileage r.mileage,
        deltaSoc := diffFill prev.soc r.soc,
        timeDiffMin := r.ts - prev.ts } :: withDeltasAux r rest

/-- The table with the three derived columns of source lines 49-51; the
first row gets `0` everywhere (`diff` yields `NaN`, then `fillna(0)`). -/
def withDeltas : List Sample → List DSample
  | [] => []
  | r :: rest =>
      { s := r, deltaMileage := 0, deltaSoc := 0, timeDiffMin := 0 } ::
        withDeltasAux r rest

/-- `is_driving`: `delta_mileage > 0` (source line 58). -/
def isDrivingB (d : DSample) : Bool :=
  decide (0 < d.deltaMileage)

/-- `is_charging`: `chargePowerInKW > 0.5` (source line 55); a `NaN`
power compares false. -/
def isChargingB (d : DSample) : Bool :=
  match d.s.power with
  | some p => decide ((1 : ℚ) / 2 < p)
  | none => false

/-- Grouping of the regime-filtered rows by the boundary flag
`time_diff_min > thr` (source lines 75-76 and 132-133): `cumsum` of the
flags followed by `groupby` makes a maximal block end right before each
flagged row; the very first row starts the first group whatever its flag. -/
def splitSessions (thr : ℚ) : List DSample → List (List DSample)
  | [] => []
  | [d] => [[d]]
  | d :: d2 :: rest =>
      match splitSessions thr (d2 :: rest) with
      | [] => [[d]]
      | g :: gs =>
          if thr < d2.timeDiffMin then [d] :: g :: gs else (d :: g) :: gs

/-- `group.index.min()`: smallest timestamp of a group (junk `0` on the
empty list, which never arises). -/
def listMin : List ℚ → ℚ
  | [] => 0
  | x :: xs => xs.foldl min x

/-- `group.index.max()`: largest timestamp of a group. -/
def listMax : List ℚ → ℚ
  | [] => 0
  | x :: xs => xs.foldl max x

/-- `group.index.min()` over the rows of a session. -/
def sessStart (g : List DSample) : ℚ :=
  listMin (g.map (fun d => d.s.ts))

/-- `group.index.max()` over the rows of a session. -/
def sessEnd (g : List DSample) : ℚ :=
  listMax (g.map (fun d => d.s.ts))

/-- `BATTERY_CAPACITY_KWH = 77.0` (source line 35). -/
def batteryCapacity : ℚ := 77

/-- `round(x, dec)` modelled over the rationals. -/
def roundTo (dec : ℕ) (q : ℚ) : ℚ :=
  ((round (q * 10 ^ dec) : ℤ) : ℚ) / 10 ^ dec

/-- `group['currentSOCInPct'].iloc[0]` (may be `NaN`). -/
def headSoc (g : List DSample) : Option ℚ :=
  match g with
  | [] => none
  | d :: _ => d.s.soc

/-- `group['currentSOCInPct'].iloc[-1]` (may be `NaN`). -/
def lastSoc (g : List DSample) : Option ℚ :=
  g.getLast?.bind (fun d => d.s.soc)

/-- `soc_diff = start_soc - end_soc` (source line 102); `NaN` if either
endpoint is missing. -/
def socDrop (g : List DSample) : Option ℚ :=
  match headSoc g, lastSoc g with
  | some a, some b => some (a - b)
  | _, _ => none

/-- `soc_added = end_soc - start_soc` (source line 141). -/
def socGain (g : List DSample) : Option ℚ :=
  match headSoc g, lastSoc g with
  | some a, some b => some (b - a)
  | _, _ => none

/-- `distance = group['delta_mileage'].sum()` (source line 94). -/
def tripDistance (g : List DSample) : ℚ :=
  (g.map (fun d => d.deltaMileage)).sum

/-- `energy_consumed_kwh` (source line 106); the comparison `NaN > 0` is
false, so a missing drop also lands in the `else 0` branch. -/
def tripEnergy (g : List DSample) : ℚ :=
  match socDrop g with
  | some v => if 0 < v then v / 100 * batteryCapacity else 0
  | none => 0

/-- `energy_added_soc` (source line 144). -/
def chargeEnergy (g : List DSample) : ℚ :=
  match socGain g with
  | some v => if 0 < v then v / 100 * batteryCapacity else 0
  | none => 0

/-- `group['temperatureOutsideVehicle'].mean()` (source line 111): pandas
skips `NaN` entries and yields `NaN` when none remain. -/
def tempMean (g : List DSample) : Option ℚ :=
  let vs := g.filterMap (fun d => d.s.temp)
  if vs.isEmpty then none else some (vs.sum / vs.length)

/-- `group['chargePowerInKW'].mean()` (source line 147); in a charging
group every power reading is present. -/
def chargePowerMean (g : List DSample) : ℚ :=
  (g.filterMap (fun d => d.s.power)).sum /
    (g.filterMap (fun d => d.s.power)).length

/-- `group['chargePowerInKW'].max()` (source line 148). -/
def chargePowerMax (g : List DSample) : ℚ :=
  listMax (g.filterMap (fun d => d.s.power))

/-- One row of the trips output table (source lines 113-122). -/
structure Trip where
  startTime : ℚ
  endTime : ℚ
  distance : ℚ
  startSoc : Option ℚ
  endSoc : Option ℚ
  energyUsed : ℚ
  consumption : ℚ
  avgTemp : Option ℚ
deriving DecidableEq

/-- One row of the charges output table (source lines 153-162). -/
structure Charge where
  startTime : ℚ
  endTime : ℚ
  durationH : ℚ
  startSoc : Option ℚ
  endSoc : Option ℚ
  energyAdded : ℚ
  avgPower : ℚ
  maxPower : ℚ
deriving DecidableEq

/-- Aggregation of one trip group (source lines 83-122). -/
def mkTrip (g : List DSample) : Trip :=
  { startTime := sessStart g
    endTime := sessEnd g
    distance := roundTo 1 (tripDistance g)
    startSoc := headSoc g
    endSoc := lastSoc g
    energyUsed := roundTo 2 (tripEnergy g)
    consumption := roundTo 2
      (if 0 < tripDistance g then tripEnergy g / tripDistance g * 100 else 0)
    avgTemp := (tempMean g).map (roundTo 1) }

/-- Aggregation of one charge group (source lines 135-162); the duration
of a session whose timestamps are minutes is `(end - start) / 60` hours. -/
def mkCharge (g : List DSample) : Charge :=
  { startTime := sessStart g
    endTime := sessEnd g
    durationH := roundTo 2 ((sessEnd g - sessStart g) / 60)
    startSoc := headSoc g
    endSoc := lastSoc g
    energyAdded := roundTo 2 (chargeEnergy g)
    avgPower := roundTo 1 (chargePowerMean g)
    maxPower := roundTo 1 (chargePowerMax g) }

/-- `driving_data = df[is_driving]` (source line 69). -/
def drivingOf (rows : List Sample) : List DSample :=
  (withDeltas rows).filter isDrivingB

/-- `charging_data = df[is_charging]` (source line 127). -/
def chargingOf (rows : List Sample) : List DSample :=
  (withDeltas rows).filter isChargingB

/-- The trip groups: driving rows split at `time_diff_min > 30`
(source lines 73-83). -/
def tripGroupsOf (rows : List Sample) : List (List DSample) :=
  splitSessions 30 (drivingOf rows)

/-- The charge groups: charging rows split at `time_diff_min > 15`
(source lines 130-135). -/
def chargeGroupsOf (rows : List Sample) : List (List DSample) :=
  splitSessions 15 (chargingOf rows)

/-- The trips table (source lines 83-124): one row per group, none
discarded. -/
def tripsOf (rows : List Sample) : List Trip :=
  (tripGroupsOf rows).map mkTrip

/-- The charges table (source lines 135-164). -/
def chargesOf (rows : List Sample) : List Charge :=
  (chargeGroupsOf rows).map mkCharge

/-- `required_cols` (source line 38). -/
def requiredCols : List String :=
  ["currentSOCInPct", "mileage", "chargePowerInKW", "temperatureOutsideVehicle"]

/-- The three columns `calculate_consumption_and_charges` assigns into its
argument (source lines 49-51). -/
def helperCols : List String :=
  ["delta_mileage", "delta_soc", "time_diff_min"]

/-- The filled state table as handed to the segmentation engine: its
column list plus its rows projected to the segmentation fields. -/
structure StateTable where
  cols : List String
  rows : List Sample
deriving DecidableEq

/-- `calculate_consumption_and_charges` (source lines 29-166) together
with its in-place effect on the argument table: if a required column is
missing it returns `(None, None)` before touching the table (lines 38-42);
otherwise it assigns the three helper columns into the caller's dataframe
(lines 49-51) and returns the two session tables. -/
def calculateFull (t : StateTable) :
    StateTable × Option (List Trip × List Charge) :=
  if requiredCols.all (fun c => t.cols.contains c) then
    ({ t with cols := t.cols ++ helperCols },
      some (tripsOf t.rows, chargesOf t.rows))
  else (t, none)

/-- The trips delivered at the output boundary: the caller saves the trips
table only when it is neither `None` nor empty (source lines 278-283), so
a `None` result delivers no trips. -/
def deliveredTrips (t : StateTable) : List Trip :=
  match (calculateFull t).2 with
  | none => []
  | some p => p.1

/-- The charges delivered at the output boundary (source lines 285-290). -/
def deliveredCharges (t : StateTable) : List Charge :=
  match (calculateFull t).2 with
  | none => []
  | some p => p.2

/-- The columns of the state table saved to `output_path` (source line
295): `df_filled` is written only after `calculate_consumption_and_charges`
has run on it. -/
def outputStateCols (t : StateTable) : List String :=
  (calculateFull t).1.cols

/-! ## Structural lemmas about the session grouping -/

theorem splitSessions_shape (thr : ℚ) (d : DSample) (rest : List DSample) :
    ∃ t gs, splitSessions thr (d :: rest) = (d :: t) :: gs := by
  induction rest generalizing d with
  | nil => exact ⟨[], [], rfl⟩
  | cons d2 rest2 ih =>
    obtain ⟨t, gs, h⟩ := ih d2
    by_cases hb : thr < d2.timeDiffMin
    · exact ⟨[], (d2 :: t) :: gs, by simp [splitSessions, h, hb]⟩
    · exact ⟨d2 :: t, gs, by simp [splitSessions, h, hb]⟩

theorem splitSessions_join (thr : ℚ) :
    ∀ ds : List DSample, (splitSessions thr ds).flatten = ds := by
  intro ds
  induction ds with
  | nil => simp [splitSessions]
  | cons d rest ih =>
    cases rest with
    | nil => simp [splitSessions]
    | cons d2 rest2 =>
      obtain ⟨t, gs, h⟩ := splitSessions_shape thr d2 rest2
      rw [h] at ih
      by_cases hb : thr < d2.timeDiffMin
      · simp only [splitSessions, h, hb, if_true]
        simpa using ih
      · simp only [splitSessions, h, hb, if_false]
        simpa using ih

theorem splitSessions_ne_nil (thr : ℚ) :
    ∀ ds : List DSample, ∀ g ∈ splitSessions thr ds, g ≠ [] := by
  intro ds
  induction ds with
  | nil => simp [splitSessions]
  | cons d rest ih =>
    cases rest with
    | nil => simp [splitSessions]
    | cons d2 rest2 =>
      obtain ⟨t, gs, h⟩ := splitSessions_shape thr d2 rest2
      rw [h] at ih
      by_cases hb : thr < d2.timeDiffMin
      · simp only [splitSessions, h, hb, if_true]
        intro g hg
        simp only [List.mem_cons] at hg
        rcases hg with hg | hg | hg
        · simp [hg]
        · simp [hg]
        · exact ih g (List.mem_cons_of_mem _ hg)
      · simp only [splitSessions, h, hb, if_false]
        intro g hg
        simp only [List.mem_cons] at hg
        rcases hg with hg | hg
        · simp [hg]
        · exact ih g (List.mem_cons_of_mem _ hg)

theorem splitSessions_tail_le (thr : ℚ) :
    ∀ ds : List DSample, ∀ g ∈ splitSessions thr ds, ∀ x ∈ g.tail,
      x.timeDiffMin ≤ thr := by
  intro ds
  induction ds with
  | nil => simp [splitSessions]
  | cons d rest ih =>
    cases rest with
    | nil => simp [splitSessions]
    | cons d2 rest2 =>
      obtain ⟨t, gs, h⟩ := splitSessions_shape thr d2 rest2
      rw [h] at ih
      by_cases hb : thr < d2.timeDiffMin
      · simp only [splitSessions, h, hb, if_true]
        intro g hg
        simp only [List.mem_cons] at hg
        rcases hg with hg | hg | hg
        · simp [hg]
        · exact fun x hx => ih g (by simp [hg]) x hx
        · exact fun x hx => ih g (List.mem_cons_of_mem _ hg) x hx
      · simp only [splitSessions, h, hb, if_false]
        intro g hg
        simp only [List.mem_cons] at hg
        rcases hg with hg | hg
        · subst hg
          intro x hx
          simp only [List.tail_cons] at hx
          rcases List.mem_cons.mp hx with hx | hx
          · subst hx; exact le_of_not_lt hb
          · exact ih (d2 :: t) (by simp) x (by simpa using hx)
        · exact fun x hx => ih g (List.mem_cons_of_mem _ hg) x hx

theorem splitSessions_boundary (thr : ℚ) :
    ∀ ds : List DSample,
      List.Chain' (fun _ g2 => ∀ x ∈ g2.head?, thr < x.timeDiffMin)
        (splitSessions thr ds) := by
  intro ds
  induction ds with
  | nil => simp [splitSessions]
  | cons d rest ih =>
    cases rest with
    | nil => simp [splitSessions]
    | cons d2 rest2 =>
      obtain ⟨t, gs, h⟩ := splitSessions_shape thr d2 rest2
      rw [h] at ih
      by_cases hb : thr < d2.timeDiffMin
      · simp only [splitSessions, h, hb, if_true]
        refine List.Chain'.cons ?_ ih
        intro x hx
        simp only [List.head?_cons, Option.mem_def, Option.some_inj] at hx
        subst hx; exact hb
      · simp only [splitSessions, h, hb, if_false]
        cases gs with
        | nil => simp
        | cons g2 gs2 =>
          rcases ih with _ | ⟨hrel, hch⟩
          exact List.Chain'.cons hrel hch

/-! ## The derived-column table -/

/-- Relation between an earlier and a later derived row: time strictly
increases, and the stored gap to the immediate full-table predecessor is
at most the gap back to any earlier row. -/
def DRel (a b : DSample) : Prop :=
  a.s.ts < b.s.ts ∧ b.timeDiffMin ≤ b.s.ts - a.s.ts

theorem withDeltasAux_forall (prev : Sample) (rows : List Sample)
    (h : List.Chain (fun a b => a.ts < b.ts) prev rows) :
    ∀ d ∈ withDeltasAux prev rows,
      prev.ts < d.s.ts ∧ d.timeDiffMin ≤ d.s.ts - prev.ts := by
  induction rows generalizing prev with
  | nil => simp [withDeltasAux]
  | cons r rest ih =>
    rcases h with _ | ⟨hpr, hrest⟩
    intro d hd
    simp only [withDeltasAux, List.mem_cons] at hd
    rcases hd with hd | hd
    · subst hd
      exact ⟨hpr, le_refl _⟩
    · obtain ⟨h1, h2⟩ := ih r hrest d hd
      exact ⟨lt_trans hpr h1, le_trans h2 (by linarith)⟩

theorem withDeltasAux_pairwise (prev : Sample) (rows : List Sample)
    (h : List.Chain (fun a b => a.ts < b.ts) prev rows) :
    (withDeltasAux prev rows).Pairwise DRel := by
  induction rows generalizing prev with
  | nil => simp [withDeltasAux]
  | cons r rest ih =>
    rcases h with _ | ⟨hpr, hrest⟩
    simp only [withDeltasAux]
    refine List.Pairwise.cons ?_ (ih r hrest)
    intro b hb
    exact withDeltasAux_forall r rest hrest b hb

theorem withDeltas_pairwise (rows : List Sample)
    (h : List.Chain' (fun a b => a.ts < b.ts) rows) :
    (withDeltas rows).Pairwise DRel := by
  cases rows with
  | nil => simp [withDeltas]
  | cons r rest =>
    have hc : List.Chain (fun a b => a.ts < b.ts) r rest := h
    simp only [withDeltas]
    refine List.Pairwise.cons ?_ (withDeltasAux_pairwise r rest hc)
    intro b hb
    exact withDeltasAux_forall r rest hc b hb

/-! ## Generic list lemmas -/

theorem pairwise_of_mem_flatten {α : Type} {R : α → α → Prop} :
    ∀ gs : List (List α), gs.flatten.Pairwise R → ∀ g ∈ gs, g.Pairwise R := by
  intro gs
  induction gs with
  | nil => simp
  | cons g1 gs1 ih =>
    intro h g hg
    rw [List.flatten_cons, List.pairwise_append] at h
    obtain ⟨h1, h2, _⟩ := h
    rcases List.mem_cons.mp hg with rfl | hg
    · exact h1
    · exact ih h2 g hg

theorem chain_of_flatten_pairwise {α : Type} {R : α → α → Prop} :
    ∀ gs : List (List α), gs.flatten.Pairwise R →
      List.Chain' (fun g1 g2 => ∀ a ∈ g1, ∀ b ∈ g2, R a b) gs := by
  intro gs
  induction gs with
  | nil => simp
  | cons g1 gs1 ih =>
    intro h
    rw [List.flatten_cons, List.pairwise_append] at h
    obtain ⟨_, h2, h3⟩ := h
    cases gs1 with
    | nil => simp
    | cons g2 gs2 =>
      refine List.Chain'.cons ?_ (ih h2)
      intro a ha b hb
      exact h3 a ha b (List.mem_flatten.mpr ⟨g2, List.mem_cons_self _ _, hb⟩)

theorem chain'_and_chain' {α : Type} {R S : α → α → Prop} :
    ∀ {l : List α}, List.Chain' R l → List.Chain' S l →
      List.Chain' (fun a b => R a b ∧ S a b) l := by
  intro l
  induction l with
  | nil => simp
  | cons a t ih =>
    cases t with
    | nil => simp
    | cons b t2 =>
      intro hR hS
      rw [List.chain'_cons] at hR hS ⊢
      exact ⟨⟨hR.1, hS.1⟩, ih hR.2 hS.2⟩

/-! ## Lemmas about `listMin` and `listMax` -/

theorem foldl_min_mem : ∀ (xs : List ℚ) (a : ℚ), xs.foldl min a ∈ a :: xs := by
  intro xs
  induction xs with
  | nil => simp
  | cons x xs ih =>
    intro a
    simp only [List.foldl_cons]
    rcases List.mem_cons.mp (ih (min a x)) with h | h
    · rcases min_choice a x with h2 | h2
      · rw [h, h2]; exact List.mem_cons_self _ _
      · rw [h, h2]; exact List.mem_cons_of_mem _ (List.mem_cons_self _ _)
    · exact List.mem_cons_of_mem _ (List.mem_cons_of_mem _ h)

theorem foldl_max_mem : ∀ (xs : List ℚ) (a : ℚ), xs.foldl max a ∈ a :: xs := by
  intro xs
  induction xs with
  | nil => simp
  | cons x xs ih =>
    intro a
    simp only [List.foldl_cons]
    rcases List.mem_cons.mp (ih (max a x)) with h | h
    · rcases max_choice a x with h2 | h2
      · rw [h, h2]; exact List.mem_cons_self _ _
      · rw [h, h2]; exact List.mem_cons_of_mem _ (List.mem_cons_self _ _)
    · exact List.mem_cons_of_mem _ (List.mem_cons_of_mem _ h)

theorem listMin_mem (xs : List ℚ) (h : xs ≠ []) : listMin xs ∈ xs := by
  cases xs with
  | nil => exact absurd rfl h
  | cons x t => exact foldl_min_mem t x

theorem listMax_mem (xs : List ℚ) (h : xs ≠ []) : listMax xs ∈ xs := by
  cases xs with
  | nil => exact absurd rfl h
  | cons x t => exact foldl_max_mem t x

theorem foldl_min_le_init : ∀ (xs : List ℚ) (a : ℚ), xs.foldl min a ≤ a := by
  intro xs
  induction xs with
  | nil => simp
  | cons x xs ih =>
    intro a
    simp only [List.foldl_cons]
    exact le_trans (ih (min a x)) (min_le_left _ _)

theorem foldl_min_le_mem : ∀ (xs : List ℚ) (a x : ℚ), x ∈ xs →
    xs.foldl min a ≤ x := by
  intro xs
  induction xs with
  | nil => simp
  | cons y ys ih =>
    intro a x hx
    simp only [List.foldl_cons]
    rcases List.mem_cons.mp hx with rfl | hx
    · exact le_trans (foldl_min_le_init ys (min a x)) (min_le_right _ _)
    · exact ih (min a y) x hx

theorem listMin_le (xs : List ℚ) (x : ℚ) (h : x ∈ xs) : listMin xs ≤ x := by
  cases xs with
  | nil => simp at h
  | cons y t =>
    rcases List.mem_cons.mp h with rfl | h
    · exact foldl_min_le_init t x
    · exact foldl_min_le_mem t y x h

theorem le_foldl_max_init : ∀ (xs : List ℚ) (a : ℚ), a ≤ xs.foldl max a := by
  intro xs
  induction xs with
  | nil => simp
  | cons x xs ih =>
    intro a
    simp only [List.foldl_cons]
    exact le_trans (le_max_left _ _) (ih (max a x))

theorem le_foldl_max_mem : ∀ (xs : List ℚ) (a x : ℚ), x ∈ xs →
    x ≤ xs.foldl max a := by
  intro xs
  induction xs with
  | nil => simp
  | cons y ys ih =>
    intro a x hx
    simp only [List.foldl_cons]
    rcases List.mem_cons.mp hx with rfl | hx
    · exact le_trans (le_max_right _ _) (le_foldl_max_init ys (max a x))
    · exact ih (max a y) x hx

theorem le_listMax (xs : List ℚ) (x : ℚ) (h : x ∈ xs) : x ≤ listMax xs := by
  cases xs with
  | nil => simp at h
  | cons y t =>
    rcases List.mem_cons.mp h with rfl | h
    · exact le_foldl_max_init t x
    · exact le_foldl_max_mem t y x h

theorem foldl_min_of_le : ∀ (xs : List ℚ) (a : ℚ), (∀ y ∈ xs, a ≤ y) →
    xs.foldl min a = a := by
  intro xs
  induction xs with
  | nil => simp
  | cons y ys ih =>
    intro a h
    simp only [List.foldl_cons]
    rw [min_eq_left (h y (List.mem_cons_self _ _))]
    exact ih a (fun z hz => h z (List.mem_cons_of_mem _ hz))

theorem listMin_head (x : ℚ) (xs : List ℚ) (h : ∀ y ∈ xs, x ≤ y) :
    listMin (x :: xs) = x :=
  foldl_min_of_le xs x h

/-! ## Mean bounds -/

theorem mul_length_lt_sum (c : ℚ) :
    ∀ vs : List ℚ, vs ≠ [] → (∀ v ∈ vs, c < v) →
      c * vs.length < vs.sum := by
  intro vs
  induction vs with
  | nil => simp
  | cons v t ih =>
    intro _ h
    cases t with
    | nil => simpa using h v (List.mem_cons_self _ _)
    | cons w t2 =>
      have h1 := h v (List.mem_cons_self _ _)
      have h2 := ih (by simp) (fun x hx => h x (List.mem_cons_of_mem _ hx))
      simp only [List.sum_cons, List.length_cons] at h2 ⊢
      push_cast at h2 ⊢
      linarith

theorem lt_mean (c : ℚ) (vs : List ℚ) (hne : vs ≠ []) (h : ∀ v ∈ vs, c < v) :
    c < vs.sum / vs.length := by
  have hlen : 0 < (vs.length : ℚ) := by
    exact_mod_cast List.length_pos.mpr hne
  rw [lt_div_iff₀ hlen]
  have := mul_length_lt_sum c vs hne h
  linarith

/-! ## Forward fill -/

theorem ffillFrom_length {α : Type} :
    ∀ (l : List (Option α)) (acc : Option α),
      (ffillFrom acc l).length = l.length := by
  intro l
  induction l with
  | nil => intro acc; rfl
  | cons c cs ih =>
    intro acc
    cases c <;> simp [ffillFrom, ih]

theorem ffillFrom_isSome_of_acc {α : Type} :
    ∀ (l : List (Option α)) (acc : Option α), acc.isSome → ∀ j < l.length,
      ((ffillFrom acc l).getD j none).isSome := by
  intro l
  induction l with
  | nil =>
    intro acc _ j hj
    simp at hj
  | cons c cs ih =>
    intro acc hacc j hj
    cases c with
    | none =>
      cases j with
      | zero => simpa [ffillFrom] using hacc
      | succ j2 =>
        simp only [ffillFrom, List.getD_cons_succ]
        exact ih acc hacc j2 (by simpa using hj)
    | some v =>
      cases j with
      | zero => simp [ffillFrom]
      | succ j2 =>
        simp only [ffillFrom, List.getD_cons_succ]
        exact ih (some v) rfl j2 (by simpa using hj)

theorem ffillFrom_total {α : Type} :
    ∀ (l : List (Option α)) (acc : Option α) (i j : ℕ), i ≤ j → j < l.length →
      (l.getD i none).isSome → ((ffillFrom acc l).getD j none).isSome := by
  intro l
  induction l with
  | nil =>
    intro acc i j _ hj
    simp at hj
  | cons c cs ih =>
    intro acc i j hij hj hdef
    cases i with
    | zero =>
      cases c with
      | none => simp at hdef
      | some v =>
        cases j with
        | zero => simp [ffillFrom]
        | succ j2 =>
          simp only [ffillFrom, List.getD_cons_succ]
          exact ffillFrom_isSome_of_acc cs (some v) rfl j2 (by simpa using hj)
    | succ i2 =>
      cases j with
      | zero => omega
      | succ j2 =>
        cases c with
        | none =>
          simp only [ffillFrom, List.getD_cons_succ]
          exact ih acc i2 j2 (by omega) (by simpa using hj)
            (by simpa using hdef)
        | some v =>
          simp only [ffillFrom, List.getD_cons_succ]
          exact ih (some v) i2 j2 (by omega) (by simpa using hj)
            (by simpa using hdef)

/-! ## Rounding -/

theorem round_nonneg_int (q : ℚ) (h : 0 ≤ q) : 0 ≤ round q := by
  rw [round_eq]
  exact Int.le_floor.mpr (by push_cast; linarith)

theorem roundTo_nonneg (n : ℕ) (q : ℚ) (h : 0 ≤ q) : 0 ≤ roundTo n q := by
  unfold roundTo
  apply div_nonneg
  · exact_mod_cast round_nonneg_int (q * 10 ^ n) (by positivity)
  · positivity

theorem roundTo_zero (n : ℕ) : roundTo n 0 = 0 := by
  simp [roundTo]

/-! ## Kelvin-fix arithmetic -/

theorem colVals_map_sub (col : List (Option Val)) :
    colVals (col.map (Option.map subKelvin)) =
      (colVals col).map (fun q => q - kelvinOffset) := by
  induction col with
  | nil => rfl
  | cons c cs ih =>
    cases c with
    | none => simpa [colVals, List.filterMap_cons] using ih
    | some v =>
      cases v with
      | num q =>
        simp only [colVals, List.map_cons, List.filterMap_cons] at ih ⊢
        simpa [subKelvin, valNum?] using ih
      | str s =>
        simp only [colVals, List.map_cons, List.filterMap_cons] at ih ⊢
        simpa [subKelvin, valNum?] using ih

theorem sum_map_sub_const (k : ℚ) :
    ∀ vs : List ℚ, (vs.map (fun q => q - k)).sum = vs.sum - vs.length * k := by
  intro vs
  induction vs with
  | nil => simp
  | cons v t ih =>
    simp only [List.map_cons, List.sum_cons, List.length_cons, ih]
    push_cast
    ring

theorem colVals_ne_nil_of_mean_gt (col : List (Option Val)) (c : ℚ)
    (hc : 0 ≤ c) (h : c < colMeanV col) : colVals col ≠ [] := by
  intro hnil
  rw [colMeanV, hnil] at h
  simp at h
  linarith

theorem colMeanV_map_sub (col : List (Option Val)) (h : colVals col ≠ []) :
    colMeanV (col.map (Option.map subKelvin)) = colMeanV col - kelvinOffset := by
  have hlen : ((colVals col).length : ℚ) ≠ 0 := by
    have := List.length_pos.mpr h
    positivity
  unfold colMeanV
  rw [colVals_map_sub, sum_map_sub_const, List.length_map, sub_div,
    mul_comm ((colVals col).length : ℚ) kelvinOffset,
    mul_div_assoc, div_self hlen, mul_one]

/-! ## Facts about one regime pass -/

theorem chain'_imp_of_mem {α : Type} {R S : α → α → Prop} :
    ∀ {l : List α}, (∀ a ∈ l, ∀ b ∈ l, R a b → S a b) →
      List.Chain' R l → List.Chain' S l := by
  intro l
  induction l with
  | nil => simp
  | cons a t ih =>
    cases t with
    | nil => simp
    | cons b t2 =>
      intro himp hR
      rw [List.chain'_cons] at hR ⊢
      refine ⟨himp a (List.mem_cons_self _ _) b
        (List.mem_cons_of_mem _ (List.mem_cons_self _ _)) hR.1, ?_⟩
      exact ih (fun x hx y hy hxy =>
        himp x (List.mem_cons_of_mem _ hx) y (List.mem_cons_of_mem _ hy) hxy) hR.2

theorem filtered_pairwise (p : DSample → Bool) (rows : List Sample)
    (h : List.Chain' (fun a b => a.ts < b.ts) rows) :
    ((withDeltas rows).filter p).Pairwise DRel :=
  List.Pairwise.sublist (List.filter_sublist _) (withDeltas_pairwise rows h)

/-- Between two consecutive sessions of one pass, the wall-clock gap from
the end of the first to the start of the second exceeds the threshold. -/
theorem pass_strad (thr : ℚ) (p : DSample → Bool) (rows : List Sample)
    (h : List.Chain' (fun a b => a.ts < b.ts) rows) :
    List.Chain' (fun g1 g2 => thr < sessStart g2 - sessEnd g1)
      (splitSessions thr ((withDeltas rows).filter p)) := by
  have hpw := filtered_pairwise p rows h
  have hfl := splitSessions_join thr ((withDeltas rows).filter p)
  have hfpw : (splitSessions thr ((withDeltas rows).filter p)).flatten.Pairwise
      DRel := by rw [hfl]; exact hpw
  have hall := chain_of_flatten_pairwise _ hfpw
  have hbound := splitSessions_boundary thr ((withDeltas rows).filter p)
  have hcomb := chain'_and_chain' hall hbound
  refine chain'_imp_of_mem ?_ hcomb
  rintro g1 hg1 g2 hg2 ⟨hAB, hHead⟩
  have hne1 := splitSessions_ne_nil thr _ g1 hg1
  have hne2 := splitSessions_ne_nil thr _ g2 hg2
  obtain ⟨b, t, rfl⟩ := List.exists_cons_of_ne_nil hne2
  have hbgt : thr < b.timeDiffMin := hHead b (by simp)
  have hg2pw : (b :: t).Pairwise DRel :=
    pairwise_of_mem_flatten _ hfpw _ hg2
  have hstart : sessStart (b :: t) = b.s.ts := by
    unfold sessStart
    simp only [List.map_cons]
    apply listMin_head
    intro y hy
    obtain ⟨c, hc, rfl⟩ := List.mem_map.mp hy
    exact le_of_lt (List.rel_of_pairwise_cons hg2pw hc).1
  have hmax : sessEnd g1 ∈ g1.map (fun d => d.s.ts) :=
    listMax_mem _ (by simpa using hne1)
  obtain ⟨a0, ha0, hts⟩ := List.mem_map.mp hmax
  have hrel := (hAB a0 ha0 b (List.mem_cons_self _ _)).2
  rw [hstart, ← hts]
  linarith

theorem sessStart_le_sessEnd (g : List DSample) (hne : g ≠ []) :
    sessStart g ≤ sessEnd g :=
  listMin_le _ _ (listMax_mem _ (by simpa using hne))

/-- **C7** — Within one regime pass the produced sessions are pairwise
disjoint in time and ordered by start time, and concatenating the
sessions' member rows in order reproduces exactly the regime-filtered
subsequence of the state table.  (Hypothesis: the state-table rows carry
strictly increasing timestamps, which the pivot guarantees.) -/
theorem c7_session_partition (rows : List Sample)
    (h : List.Chain' (fun a b => a.ts < b.ts) rows) :
    (tripGroupsOf rows).flatten = drivingOf rows ∧
    (chargeGroupsOf rows).flatten = chargingOf rows ∧
    List.Chain' (fun t1 t2 => t1.endTime < t2.startTime) (tripsOf rows) ∧
    List.Chain' (fun c1 c2 => c1.endTime < c2.startTime) (chargesOf rows) ∧
    (∀ t ∈ tripsOf rows, t.startTime ≤ t.endTime) ∧
    (∀ c ∈ chargesOf rows, c.startTime ≤ c.endTime) := by
  have htr := pass_strad 30 isDrivingB rows h
  have hch := pass_strad 15 isChargingB rows h
  refine ⟨splitSessions_join 30 _, splitSessions_join 15 _, ?_, ?_, ?_, ?_⟩
  · rw [tripsOf, List.chain'_map]
    exact htr.imp (fun {g1 g2} hg => by
      show sessEnd g1 < sessStart g2
      linarith)
  · rw [chargesOf, List.chain'_map]
    exact hch.imp (fun {g1 g2} hg => by
      show sessEnd g1 < sessStart g2
      linarith)
  · intro t ht
    obtain ⟨g, hg, rfl⟩ := List.mem_map.mp ht
    exact sessStart_le_sessEnd g (splitSessions_ne_nil 30 _ g hg)
  · intro c hc
    obtain ⟨g, hg, rfl⟩ := List.mem_map.mp hc
    exact sessStart_le_sessEnd g (splitSessions_ne_nil 15 _ g hg)

/-- Concrete two-row state table: one short drive while charging. -/
def wRows7 : List Sample :=
  [⟨0, some 50, some 0, some 3, none⟩, ⟨10, some 49, some 5, some 3, none⟩]

/-- Witness for C7 at a concrete table. -/
theorem c7_session_partition_witness :
    (tripGroupsOf wRows7).flatten = drivingOf wRows7 ∧
    (chargeGroupsOf wRows7).flatten = chargingOf wRows7 ∧
    List.Chain' (fun t1 t2 => t1.endTime < t2.startTime) (tripsOf wRows7) ∧
    List.Chain' (fun c1 c2 => c1.endTime < c2.startTime) (chargesOf wRows7) :=
  ⟨(c7_session_partition wRows7 (by norm_num [wRows7])).1,
   (c7_session_partition wRows7 (by norm_num [wRows7])).2.1,
   (c7_session_partition wRows7 (by norm_num [wRows7])).2.2.1,
   (c7_session_partition wRows7 (by norm_num [wRows7])).2.2.2.1⟩

/-- **C1 (amended)** — The boundary trigger compares against the previous
row of the FULL state table (`time_diff_min` is computed on line 51 before
the regime filter on lines 69/127), so time spent on excluded non-matching
rows does NOT accumulate toward the threshold.  What holds is: every
non-initial member of a session is at most the threshold away from its
full-table predecessor, and the wall-clock gap between consecutive
sessions of one pass exceeds the threshold (30 min for trips, 15 for
charges). -/
theorem c1_gap_rule (rows : List Sample)
    (h : List.Chain' (fun a b => a.ts < b.ts) rows) :
    (∀ g ∈ tripGroupsOf rows, ∀ d ∈ g.tail, d.timeDiffMin ≤ 30) ∧
    (∀ g ∈ chargeGroupsOf rows, ∀ d ∈ g.tail, d.timeDiffMin ≤ 15) ∧
    List.Chain' (fun g1 g2 => 30 < sessStart g2 - sessEnd g1)
      (tripGroupsOf rows) ∧
    List.Chain' (fun g1 g2 => 15 < sessStart g2 - sessEnd g1)
      (chargeGroupsOf rows) :=
  ⟨splitSessions_tail_le 30 _, splitSessions_tail_le 15 _,
    pass_strad 30 isDrivingB rows h, pass_strad 15 isChargingB rows h⟩

/-- Four rows: driving at minutes 10 and 105, with an idle report in
between at minute 100. -/
def wRows1 : List Sample :=
  [⟨0, none, some 0, none, none⟩, ⟨10, none, some 5, none, none⟩,
   ⟨100, none, some 5, none, none⟩, ⟨105, none, some 7, none, none⟩]

/-- Witness for the amended C1 at a concrete table. -/
theorem c1_gap_rule_witness :
    List.Chain' (fun g1 g2 => 30 < sessStart g2 - sessEnd g1)
      (tripGroupsOf wRows1) ∧
    List.Chain' (fun g1 g2 => 15 < sessStart g2 - sessEnd g1)
      (chargeGroupsOf wRows1) :=
  ⟨(c1_gap_rule wRows1 (by norm_num [wRows1])).2.2.1,
   (c1_gap_rule wRows1 (by norm_num [wRows1])).2.2.2⟩

/-- **C1 counterexample** — on `wRows1` the two driving rows at minutes 10
and 105 land in the SAME trip (the idle row at minute 100 resets the
predecessor, so the stored gap of the last row is only 5 minutes), yet the
gap between these consecutive same-trip samples is 95 > 30 minutes: the
claimed gap law and the claimed accumulate-across-excluded-samples trigger
are both false of the code. -/
theorem c1_counterexample :
    (tripGroupsOf wRows1).map (fun g => g.map (fun d => d.s.ts)) =
      [[10, 105]] ∧ ¬ ((105 : ℚ) - 10 ≤ 30) := by
  constructor
  · norm_num [tripGroupsOf, drivingOf, withDeltas, withDeltasAux, diffFill,
      isDrivingB, splitSessions, wRows1, List.filter]
  · norm_num

/-! ## Members of a session satisfy the regime predicate -/

theorem mem_of_mem_splitSessions (thr : ℚ) (ds : List DSample)
    (g : List DSample) (d : DSample) (hg : g ∈ splitSessions thr ds)
    (hd : d ∈ g) : d ∈ ds := by
  rw [← splitSessions_join thr ds]
  exact List.mem_flatten.mpr ⟨g, hg, hd⟩

theorem tripGroups_member_driving (rows : List Sample) (g : List DSample)
    (d : DSample) (hg : g ∈ tripGroupsOf rows) (hd : d ∈ g) :
    0 < d.deltaMileage := by
  have hmem := mem_of_mem_splitSessions 30 _ g d hg hd
  have hfil := List.of_mem_filter hmem
  simpa [isDrivingB] using hfil

theorem chargeGroups_member_power (rows : List Sample) (g : List DSample)
    (d : DSample) (hg : g ∈ chargeGroupsOf rows) (hd : d ∈ g) :
    ∃ p, d.s.power = some p ∧ 1 / 2 < p := by
  have hmem := mem_of_mem_splitSessions 15 _ g d hg hd
  have hfil := List.of_mem_filter hmem
  unfold isChargingB at hfil
  cases hp : d.s.power with
  | none => rw [hp] at hfil; simp at hfil
  | some p =>
    rw [hp] at hfil
    simp only [decide_eq_true_eq] at hfil
    exact ⟨p, rfl, hfil⟩

theorem filterMap_power_length :
    ∀ g : List DSample, (∀ d ∈ g, (d.s.power).isSome = true) →
      (g.filterMap (fun d => d.s.power)).length = g.length := by
  intro g
  induction g with
  | nil => simp
  | cons d t ih =>
    intro h
    have hd := h d (List.mem_cons_self _ _)
    cases hp : d.s.power with
    | none => rw [hp] at hd; simp at hd
    | some p =>
      simp only [List.filterMap_cons, hp, List.length_cons]
      rw [ih (fun x hx => h x (List.mem_cons_of_mem _ hx))]

/-! ## Non-negativity of the aggregates -/

theorem tripEnergy_nonneg (g : List DSample) : 0 ≤ tripEnergy g := by
  unfold tripEnergy
  cases h : socDrop g with
  | none => exact le_refl 0
  | some v =>
    show 0 ≤ if 0 < v then v / 100 * batteryCapacity else 0
    by_cases hv : 0 < v
    · rw [if_pos hv]
      apply mul_nonneg (div_nonneg (le_of_lt hv) (by norm_num))
      norm_num [batteryCapacity]
    · rw [if_neg hv]

theorem chargeEnergy_nonneg (g : List DSample) : 0 ≤ chargeEnergy g := by
  unfold chargeEnergy
  cases h : socGain g with
  | none => exact le_refl 0
  | some v =>
    show 0 ≤ if 0 < v then v / 100 * batteryCapacity else 0
    by_cases hv : 0 < v
    · rw [if_pos hv]
      apply mul_nonneg (div_nonneg (le_of_lt hv) (by norm_num))
      norm_num [batteryCapacity]
    · rw [if_neg hv]

/-- **C8** — In every output session the aggregates are non-negative:
trip distance and energy consumed, and charge energy added are all `≥ 0`;
a level rise (or unknown endpoints) during a trip yields exactly zero
energy consumed, a level drop during a charge exactly zero energy added. -/
theorem c8_nonneg (rows : List Sample) :
    (∀ t ∈ tripsOf rows, 0 ≤ t.distance ∧ 0 ≤ t.energyUsed) ∧
    (∀ c ∈ chargesOf rows, 0 ≤ c.energyAdded) ∧
    (∀ g ∈ tripGroupsOf rows, (socDrop g).getD 0 ≤ 0 →
      (mkTrip g).energyUsed = 0) ∧
    (∀ g ∈ chargeGroupsOf rows, (socGain g).getD 0 ≤ 0 →
      (mkCharge g).energyAdded = 0) := by
  refine ⟨?_, ?_, ?_, ?_⟩
  · intro t ht
    obtain ⟨g, hg, rfl⟩ := List.mem_map.mp ht
    constructor
    · apply roundTo_nonneg
      apply List.sum_nonneg
      intro x hx
      obtain ⟨d, hd, rfl⟩ := List.mem_map.mp hx
      exact le_of_lt (tripGroups_member_driving rows g d hg hd)
    · exact roundTo_nonneg 2 _ (tripEnergy_nonneg g)
  · intro c hc
    obtain ⟨g, hg, rfl⟩ := List.mem_map.mp hc
    exact roundTo_nonneg 2 _ (chargeEnergy_nonneg g)
  · intro g _ hdrop
    show roundTo 2 (tripEnergy g) = 0
    unfold tripEnergy
    cases h : socDrop g with
    | none => exact roundTo_zero 2
    | some v =>
      rw [h] at hdrop
      simp only [Option.getD_some] at hdrop
      show roundTo 2 (if 0 < v then v / 100 * batteryCapacity else 0) = 0
      rw [if_neg (not_lt.mpr hdrop)]
      exact roundTo_zero 2
  · intro g _ hgain
    show roundTo 2 (chargeEnergy g) = 0
    unfold chargeEnergy
    cases h : socGain g with
    | none => exact roundTo_zero 2
    | some v =>
      rw [h] at hgain
      simp only [Option.getD_some] at hgain
      show roundTo 2 (if 0 < v then v / 100 * batteryCapacity else 0) = 0
      rw [if_neg (not_lt.mpr hgain)]
      exact roundTo_zero 2

/-- Concrete two-row table whose single driving row forms a
single-sample trip. -/
def wRows9 : List Sample :=
  [⟨0, some 50, some 0, none, none⟩, ⟨10, some 50, some 5, none, none⟩]

/-- The one derived driving row of `wRows9`. -/
def wD9 : DSample := ⟨⟨10, some 50, some 5, none, none⟩, 5, 0, 10⟩

/-- Witness for C8 at the concrete singleton trip of `wRows9`. -/
theorem c8_nonneg_witness :
    0 ≤ (mkTrip [wD9]).distance ∧ 0 ≤ (mkTrip [wD9]).energyUsed :=
  (c8_nonneg wRows9).1 (mkTrip [wD9])
    (by norm_num [tripsOf, tripGroupsOf, drivingOf, withDeltas, withDeltasAux,
      diffFill, isDrivingB, splitSessions, wRows9, wD9, List.filter])

/-- **C9 (amended)** — A session of exactly one sample is kept (one output
row per group, none discarded) and has zero duration; but a single-sample
TRIP does not have zero distance: its distance is the (rounded) mileage
delta of its one sample, and that delta is strictly positive. -/
theorem c9_singleton_sessions (rows : List Sample) :
    (tripsOf rows).length = (tripGroupsOf rows).length ∧
    (chargesOf rows).length = (chargeGroupsOf rows).length ∧
    (∀ d : DSample, [d] ∈ tripGroupsOf rows →
      (mkTrip [d]).endTime = (mkTrip [d]).startTime ∧
      (mkTrip [d]).distance = roundTo 1 d.deltaMileage ∧
      0 < d.deltaMileage) ∧
    (∀ d : DSample, [d] ∈ chargeGroupsOf rows →
      (mkCharge [d]).durationH = 0 ∧
      (mkCharge [d]).endTime = (mkCharge [d]).startTime) := by
  refine ⟨List.length_map _ _, List.length_map _ _, ?_, ?_⟩
  · intro d hd
    refine ⟨rfl, ?_, ?_⟩
    · show roundTo 1 (tripDistance [d]) = roundTo 1 d.deltaMileage
      simp [tripDistance]
    · exact tripGroups_member_driving rows [d] d hd (List.mem_cons_self _ _)
  · intro d _
    refine ⟨?_, rfl⟩
    show roundTo 2 ((sessEnd [d] - sessStart [d]) / 60) = 0
    have he : sessEnd [d] = sessStart [d] := rfl
    rw [he, sub_self, zero_div, roundTo_zero]

/-- Witness for the amended C9 at a concrete singleton trip. -/
theorem c9_singleton_sessions_witness :
    (mkTrip [wD9]).endTime = (mkTrip [wD9]).startTime ∧
    (mkTrip [wD9]).distance = roundTo 1 wD9.deltaMileage ∧
    0 < wD9.deltaMileage :=
  (c9_singleton_sessions wRows9).2.2.1 wD9
    (by norm_num [tripGroupsOf, drivingOf, withDeltas, withDeltasAux, diffFill,
      isDrivingB, splitSessions, wRows9, wD9, List.filter])

/-- **C9 counterexample** — on `wRows9` the single-sample trip is kept,
but its distance is `5`, not zero: the claim's "zero distance" is false
for trips. -/
theorem c9_counterexample :
    (tripGroupsOf wRows9).map (fun g => g.length) = [1] ∧
    (tripsOf wRows9).map (fun t => t.distance) = [5] ∧ (5 : ℚ) ≠ 0 := by
  refine ⟨?_, ?_, by norm_num⟩
  · norm_num [tripGroupsOf, drivingOf, withDeltas, withDeltasAux, diffFill,
      isDrivingB, splitSessions, wRows9, List.filter]
  · norm_num [tripsOf, tripGroupsOf, drivingOf, withDeltas, withDeltasAux,
      diffFill, isDrivingB, splitSessions, wRows9, List.filter, mkTrip,
      tripDistance, roundTo, round_eq]

/-- **C10** — Every member sample of every charge session has power
strictly above `0.5` kW, and hence both the session's average power and
its maximum power (before output rounding) exceed `0.5` kW. -/
theorem c10_charge_power (rows : List Sample) :
    ∀ g ∈ chargeGroupsOf rows,
      (∀ d ∈ g, ∃ p, d.s.power = some p ∧ 1 / 2 < p) ∧
      1 / 2 < chargePowerMean g ∧ 1 / 2 < chargePowerMax g := by
  intro g hg
  have hmem : ∀ d ∈ g, ∃ p, d.s.power = some p ∧ 1 / 2 < p :=
    fun d hd => chargeGroups_member_power rows g d hg hd
  have hne : g ≠ [] := splitSessions_ne_nil 15 _ g hg
  have hlen : (g.filterMap (fun d => d.s.power)).length = g.length := by
    apply filterMap_power_length
    intro d hd
    obtain ⟨p, hp, _⟩ := hmem d hd
    rw [hp]; rfl
  have hvne : g.filterMap (fun d => d.s.power) ≠ [] := by
    intro hnil
    rw [hnil] at hlen
    exact hne (List.eq_nil_of_length_eq_zero hlen.symm)
  have hall : ∀ q ∈ g.filterMap (fun d => d.s.power), 1 / 2 < q := by
    intro q hq
    obtain ⟨d, hd, hdq⟩ := List.mem_filterMap.mp hq
    obtain ⟨p, hp, hpgt⟩ := hmem d hd
    rw [hp] at hdq
    obtain rfl : p = q := Option.some_injective _ hdq
    exact hpgt
  refine ⟨hmem, ?_, ?_⟩
  · exact lt_mean (1 / 2) _ hvne hall
  · exact hall _ (listMax_mem _ hvne)

/-- Concrete one-row charging table. -/
def wRows10 : List Sample := [⟨0, some 50, some 0, some 3, none⟩]

/-- The one derived charging row of `wRows10`. -/
def wD10 : DSample := ⟨⟨0, some 50, some 0, some 3, none⟩, 0, 0, 0⟩

/-- Witness for C10 at a concrete charge session. -/
theorem c10_charge_power_witness :
    1 / 2 < chargePowerMean [wD10] ∧ 1 / 2 < chargePowerMax [wD10] :=
  (c10_charge_power wRows10 [wD10]
    (by norm_num [chargeGroupsOf, chargingOf, withDeltas, withDeltasAux,
      diffFill, isChargingB, splitSessions, wRows10, wD10, List.filter])).2

/-! ## Notifications (C2) -/

theorem head?_append_of_isSome {α : Type} (l1 l2 : List α)
    (h : l1.head?.isSome = true) : (l1 ++ l2).head? = l1.head? := by
  cases l1 with
  | nil => simp at h
  | cons a t => simp

/-- **C2 (amended)** — In the notifications side table the FIRST-arriving
event wins for a `(timestamp, field)` key: once a cell holds a value, a
later-arriving event for the same key does not change it; and a cell with
no direct event stays missing (no forward fill). -/
theorem c2_first_write_wins :
    (∀ (events : List Event) (e : Event) (t : ℚ) (f : String),
      (notifCell events t f).isSome = true →
      notifCell (events ++ [e]) t f = notifCell events t f) ∧
    (∀ (events : List Event) (t : ℚ) (f : String),
      (notifEvents events).filter (matchesAt t f) = [] →
      notifCell events t f = none) := by
  constructor
  · intro events e t f h
    unfold notifCell firstAt notifEvents at h ⊢
    rw [List.filter_append, List.filter_append, List.map_append]
    exact head?_append_of_isSome _ _ h
  · intro events t f h
    unfold notifCell firstAt
    rw [h]
    rfl

/-- One notification event. -/
def wNotif : List Event := [⟨"text", Val.str ("a"), 0⟩]

/-- A later notification event for the same key. -/
def wNotifE : Event := ⟨"text", Val.str ("b"), 0⟩

/-- Witness for the amended C2. -/
theorem c2_first_write_wins_witness :
    notifCell (wNotif ++ [wNotifE]) 0 ("text") = notifCell wNotif 0 ("text") :=
  c2_first_write_wins.1 wNotif wNotifE 0 ("text") (by decide)

/-- Two notification events sharing the `(timestamp, field)` key. -/
def wNotif2 : List Event :=
  [⟨"text", Val.str ("a"), 0⟩, ⟨"text", Val.str ("b"), 0⟩]

/-- **C2 counterexample** — with two events on the same key the retained
value is that of the FIRST-arriving event (`aggfunc="first"`, source line
213), while the last-write-wins rule of the main table would retain the
second one: the claim is false of the code. -/
theorem c2_counterexample :
    notifCell wNotif2 0 ("text") = some (Val.str ("a")) ∧
    lastAt (notifEvents wNotif2) 0 ("text") = some (Val.str ("b")) := by
  exact ⟨by decide, by decide⟩

/-! ## Frame effect of the segmentation call (C3) -/

/-- **C3 (amended)** — When all four required columns are present, running
the segmentation mutates the caller's state table: exactly the three
helper columns `delta_mileage`, `delta_soc`, `time_diff_min` are appended
(and the rows' tracked values are untouched); the delivered state table
therefore does contain columns introduced by segmentation.  Only when a
required column is missing is the table returned unchanged. -/
theorem c3_frame_columns (t : StateTable) :
    (requiredCols.all (fun c => t.cols.contains c) = true →
      outputStateCols t = t.cols ++ helperCols ∧
      (calculateFull t).1.rows = t.rows) ∧
    (requiredCols.all (fun c => t.cols.contains c) = false →
      (calculateFull t).1 = t) := by
  constructor
  · intro h
    constructor
    · show (calculateFull t).1.cols = t.cols ++ helperCols
      rw [calculateFull, if_pos h]
    · rw [calculateFull, if_pos h]
  · intro h
    rw [calculateFull, if_neg (by rw [h]; exact Bool.false_ne_true)]

/-- A state table holding exactly the tracked fields. -/
def wTbl3 : StateTable := ⟨interestingFields, []⟩

/-- Witness for the amended C3. -/
theorem c3_frame_columns_witness :
    outputStateCols wTbl3 = wTbl3.cols ++ helperCols ∧
    (calculateFull wTbl3).1.rows = wTbl3.rows :=
  (c3_frame_columns wTbl3).1 (by decide)

/-- **C3 counterexample** — the delivered state table of `wTbl3` contains
the column `delta_mileage`, which is not a tracked field: computing the
trip and charge tables does NOT leave the state table unchanged. -/
theorem c3_counterexample :
    "delta_mileage" ∈ outputStateCols wTbl3 ∧
    "delta_mileage" ∉ interestingFields := by
  exact ⟨by decide, by decide⟩

/-! ## Missing required columns (C4) -/

/-- **C4** — If any of the four required columns is absent from the filled
state table, segmentation is skipped: the function returns no session
tables at all (`None, None`), the caller saves nothing, and both delivered
session sets are empty; no error is raised (the embedding is total). -/
theorem c4_missing_column (t : StateTable) (c : String)
    (hc : c ∈ requiredCols) (habs : t.cols.contains c = false) :
    (calculateFull t).2 = none ∧
    deliveredTrips t = [] ∧ deliveredCharges t = [] := by
  have hall : requiredCols.all (fun x => t.cols.contains x) = false := by
    cases hA : requiredCols.all (fun x => t.cols.contains x) with
    | false => rfl
    | true =>
      have := List.all_eq_true.mp hA c hc
      rw [habs] at this
      exact absurd this (by simp)
  have hne : ¬ (requiredCols.all (fun c => t.cols.contains c) = true) := by
    rw [hall]; exact Bool.false_ne_true
  refine ⟨?_, ?_, ?_⟩
  · rw [calculateFull, if_neg hne]
  · rw [deliveredTrips, calculateFull, if_neg hne]
  · rw [deliveredCharges, calculateFull, if_neg hne]

/-- A state table lacking the `mileage` column. -/
def wTbl4 : StateTable := ⟨["currentSOCInPct"], []⟩

/-- Witness for C4. -/
theorem c4_missing_column_witness :
    (calculateFull wTbl4).2 = none ∧
    deliveredTrips wTbl4 = [] ∧ deliveredCharges wTbl4 = [] :=
  c4_missing_column wTbl4 ("mileage") (by decide) (by decide)

/-! ## The Kelvin fix (C5) -/

/-- **C5 (amended)** — The Kelvin correction is idempotent exactly on the
columns whose mean does not exceed `473.15`: for a mean in
`(200, 473.15]` one subtraction of `273.15` brings the mean to at most
`200`, below the strict re-trigger threshold, so a second application
changes nothing; for a mean `≤ 200` the procedure is the identity.
(The unconditional claim is false: a mean above `473.15` re-triggers.) -/
theorem c5_kelvin_fix_idempotent (col : List (Option Val))
    (h : colMeanV col ≤ 47315 / 100) :
    fixTempCol (fixTempCol col) = fixTempCol col ∧
    (200 < colMeanV col → colMeanV (fixTempCol col) ≤ 200) := by
  by_cases htrig : 200 < colMeanV col
  · have hne := colVals_ne_nil_of_mean_gt col 200 (by norm_num) htrig
    have hmean2 : colMeanV (fixTempCol col) = colMeanV col - kelvinOffset := by
      rw [fixTempCol, if_pos htrig]
      exact colMeanV_map_sub col hne
    have hk : kelvinOffset = 27315 / 100 := rfl
    have hle : colMeanV (fixTempCol col) ≤ 200 := by
      rw [hmean2, hk]
      linarith
    refine ⟨?_, fun _ => hle⟩
    calc fixTempCol (fixTempCol col)
        = if 200 < colMeanV (fixTempCol col) then
            (fixTempCol col).map (Option.map subKelvin)
          else fixTempCol col := rfl
      _ = fixTempCol col := if_neg (not_lt.mpr hle)
  · have hfix : fixTempCol col = col := by rw [fixTempCol, if_neg htrig]
    exact ⟨by rw [hfix, hfix], fun hc => absurd hc htrig⟩

/-- A plausible all-Kelvin temperature column. -/
def wCol5 : List (Option Val) := [some (Val.num 300)]

/-- Witness for the amended C5. -/
theorem c5_kelvin_fix_idempotent_witness :
    fixTempCol (fixTempCol wCol5) = fixTempCol wCol5 :=
  (c5_kelvin_fix_idempotent wCol5
    (by norm_num [wCol5, colMeanV, colVals, valNum?, List.filterMap_cons])).1

/-- A temperature column with mean `500`. -/
def wCol5x : List (Option Val) := [some (Val.num 500)]

/-- **C5 counterexample** — on a column with mean `500 > 200` the first
correction leaves mean `226.85`, still above the re-trigger threshold, so
a second application subtracts again: the correction procedure is not
idempotent as claimed. -/
theorem c5_counterexample :
    200 < colMeanV wCol5x ∧
    fixTempCol (fixTempCol wCol5x) ≠ fixTempCol wCol5x := by
  constructor
  · norm_num [wCol5x, colMeanV, colVals, valNum?, List.filterMap_cons]
  · norm_num [wCol5x, fixTempCol, colMeanV, colVals, valNum?, subKelvin,
      kelvinOffset, List.filterMap_cons]

/-! ## The pivoted and filled state table (C6) -/

/-- **C6 (amended)** — The pivot has exactly one row per distinct
timestamp among the events whose field is in the interesting-field
allow-list (the index is duplicate-free and contains precisely those
timestamps); and each column of the filled table is defined at every row
at or after its first cell that is defined BEFORE the fill — i.e. after
numeric coercion.  (As literally stated over first *observed* values the
claim is false: a leading non-numeric value of a numeric column is
coerced to missing before the fill runs, see the counterexample.) -/
theorem c6_state_table (events : List Event) :
    (pivotTimestamps events).Nodup ∧
    (∀ t : ℚ, t ∈ pivotTimestamps events ↔
      t ∈ (interestingEvents events).map (fun e => e.ts)) ∧
    (∀ (f : String) (i j : ℕ), i ≤ j → j < (columnPre events f).length →
      ((columnPre events f).getD i none).isSome = true →
      ((stateColumn events f).getD j none).isSome = true) := by
  refine ⟨?_, ?_, ?_⟩
  · exact ((List.perm_insertionSort _ _).nodup_iff).mpr (List.nodup_dedup _)
  · intro t
    rw [pivotTimestamps, (List.perm_insertionSort _ _).mem_iff,
      List.mem_dedup]
  · intro f i j hij hj hdef
    exact ffillFrom_total _ none i j hij hj hdef

/-- Two mileage events; the first carries a non-numeric payload. -/
def wEvents6 : List Event :=
  [⟨"mileage", Val.str ("abc"), 0⟩, ⟨"mileage", Val.num 5, 10⟩]

/-- Witness for the amended C6. -/
theorem c6_state_table_witness :
    ((stateColumn wEvents6 ("mileage")).getD 1 none).isSome = true :=
  (c6_state_table wEvents6).2.2 ("mileage") 1 1 (le_refl 1) (by decide)
    (by decide)

/-- **C6 counterexample** — the mileage column of `wEvents6` receives its
first observed value at the first row (timestamp 0), yet the filled state
table's cell at that row is missing: the non-numeric payload was coerced
to missing before the forward fill, so "defined from the first observation
on" is false of the code. -/
theorem c6_counterexample :
    lastAt (interestingEvents wEvents6) 0 ("mileage") =
      some (Val.str ("abc")) ∧
    (pivotTimestamps wEvents6).getD 0 0 = 0 ∧
    (stateColumn wEvents6 ("mileage")).getD 0 none = none := by
  exact ⟨by decide, by decide, by decide⟩

end Enyaq
